import Mathlib

/-!
# kube-resource: the watch → cache → queue → reconcile loop

A shallow embedding of `pkg/controller/controller.go`, `pkg/spec/spec.go` and the
event handlers registered in `controller.New`.

Conventions of the embedding

* A Go `error` is an `Option Err` (`none` is `nil`); `(value, error)` pairs are `Except`.
* `Controller.queue` is a field of interface type in the source, so it is embedded as a
  record of methods over an arbitrary queue state `Q`.  Every method call made by the
  controller is appended to `World.trace`, in program order.
* `queue.Get` blocks in Go; the embedding gives it three results (an item, shutdown, or
  a call that never returns), and loops carry fuel.
* Writes to standard output (`fmt.Printf`) are not recorded.
-/

namespace KubeResource

/-! ## Data model -/

/-- Go `error` values met by the controller. -/
inductive Err where
  /-- An error made by `errors.New` or by `fmt.Errorf` with a constant text. -/
  | text (msg : String)
  /-- The value of `fmt.Errorf("unexpected key format: %q", key)`. -/
  | unexpectedKeyFormat (key : String)
  /-- The value of `fmt.Errorf("Error fetching object with key %s from store: %v", key, err)`. -/
  | fetchingObject (key : String) (cause : Err)
  /-- An API status error carrying a `metav1.StatusReason`. -/
  | status (reason : String) (message : String)
  deriving DecidableEq, Repr

/-- `spec.ResourceSpec`. -/
structure ResourceSpec where
  Foo : String
  Bar : Bool
  Baz : Int
  deriving DecidableEq, Repr

/-- `spec.ResourceStatus`. -/
structure ResourceStatus where
  State : String
  Message : String
  deriving DecidableEq, Repr

/-- `spec.Resource`: the parts of `ObjectMeta` the controller reads, the spec and the status. -/
structure Resource where
  Namespace : String
  Name : String
  ResourceVersion : String
  Spec : ResourceSpec
  Status : ResourceStatus
  deriving DecidableEq, Repr

/-- The `interface{}` values an informer hands to its event handlers. -/
inductive Obj where
  /-- A `*spec.Resource`. -/
  | resource (r : Resource)
  /-- A `cache.ExplicitKey`. -/
  | explicitKey (key : String)
  /-- A `cache.DeletedFinalStateUnknown{Key, Obj}` tombstone. -/
  | deletedFinalStateUnknown (key : String) (obj : Obj)
  /-- A value `meta.Accessor` rejects. -/
  | noMeta
  deriving DecidableEq, Repr

/-- `maxRetries` of `controller.go`. -/
def maxRetries : Int := 3

/-- `spec.ResourceGroup`. -/
def ResourceGroup : String := "oracledx.com"

/-- `spec.ResourceVersion`. -/
def ResourceVersion : String := "v1"

/-- `spec.ResourcePlural`. -/
def ResourcePlural : String := "resources"

/-! ## Work keys -/

/-- Go `strings.Split(s, sep)` for a one-character separator, on the characters of `s`. -/
def splitOnChar (sep : Char) : List Char → List (List Char)
  | [] => [[]]
  | c :: cs =>
    if c = sep then [] :: splitOnChar sep cs
    else
      match splitOnChar sep cs with
      | [] => [[c]]
      | p :: ps => (c :: p) :: ps

/-- Modelled from the spec: `cache.MetaNamespaceKeyFunc` belongs to the client library
(`k8s.io/client-go`), whose code is not part of the repository.  The Work Key is derived from the object's (namespace, name):
`namespace/name`, or `name` alone when the namespace is empty; an explicit key is
returned as it is and a value without object metadata is an error. -/
def MetaNamespaceKeyFunc : Obj → Except Err String
  | .explicitKey key => .ok key
  | .resource r =>
    if r.Namespace.length > 0 then .ok (r.Namespace ++ "/" ++ r.Name) else .ok r.Name
  | _ => .error (Err.text "object has no meta")

/-- Modelled from the spec: `cache.DeletionHandlingMetaNamespaceKeyFunc` belongs to the
client library (`k8s.io/client-go`), whose code is not part of the repository.  A tombstone yields the key stored in it; any
other value is keyed by `MetaNamespaceKeyFunc`. -/
def DeletionHandlingMetaNamespaceKeyFunc : Obj → Except Err String
  | .deletedFinalStateUnknown key _ => .ok key
  | obj => MetaNamespaceKeyFunc obj

/-- Modelled from the spec: `cache.SplitMetaNamespaceKey` belongs to the client library
(`k8s.io/client-go`), whose code is not part of the repository.  It splits the Work Key back into (namespace, name) at `/`: one part
is a name without namespace, two parts are namespace and name, anything else is a key
that cannot be split. -/
def SplitMetaNamespaceKey (key : String) : Except Err (String × String) :=
  match splitOnChar '/' key.data with
  | [name] => .ok ("", String.mk name)
  | [ns, name] => .ok (String.mk ns, String.mk name)
  | _ => .error (Err.unexpectedKeyFormat key)

/-! ## The work queue interface and the observable trace -/

/-- What `queue.Get()` does: hand out an item, report shutdown, or never return. -/
inductive GetResult (Q : Type) where
  | item (key : String) (q : Q)
  | shutdown (q : Q)
  | blocks

/-- `workqueue.RateLimitingInterface`, the methods the controller calls. -/
structure RateLimitingInterface (Q : Type) where
  Add : String → Q → Q
  Get : Q → GetResult Q
  Done : String → Q → Q
  ShutDown : Q → Q
  AddRateLimited : String → Q → Q
  Forget : String → Q → Q
  NumRequeues : String → Q → Int

/-- `cache.SharedIndexInformer`, the parts the controller reads. -/
structure SharedIndexInformer where
  /-- `GetIndexer().GetByKey(key)`: `(obj, exists, err)`. -/
  GetByKey : String → Except Err (Option Resource)

/-- `controller.Controller`.  `List` is the answer of
`client.ResourceClient(c.clientset, c.scheme, "default").List(...)`. -/
structure Controller (Q : Type) where
  queue : RateLimitingInterface Q
  informer : SharedIndexInformer
  List : Except Err (List Resource)

/-- The calls the controller makes on its collaborators. -/
inductive Call where
  | Add (key : String)
  | Get
  | Done (key : String)
  | ShutDown
  | AddRateLimited (key : String)
  | Forget (key : String)
  | NumRequeues (key : String)
  | HandleError (err : Err)
  | processItem (key : String)
  | informerRun
  | WaitForCacheSync
  | processAllItems
  | List
  | waitUntil
  deriving DecidableEq, Repr

/-- The queue state together with the calls made so far, oldest first. -/
structure World (Q : Type) where
  queue : Q
  trace : List Call

/-- How a call that may block ends. -/
inductive Outcome (α W : Type) where
  /-- The call returned `a`. -/
  | ret (a : α) (w : W)
  /-- The call is parked in `queue.Get` and never returns. -/
  | blocked (w : W)
  /-- The fuel of the embedding ran out. -/
  | outOfFuel (w : W)

variable {Q : Type}

/-- Append a call to the trace. -/
def World.log (w : World Q) (c : Call) : World Q :=
  ⟨w.queue, w.trace ++ [c]⟩

/-- `c.queue.Add(key)`. -/
def qAdd (c : Controller Q) (key : String) (w : World Q) : World Q :=
  ⟨c.queue.Add key w.queue, w.trace ++ [Call.Add key]⟩

/-- `c.queue.Done(key)`. -/
def qDone (c : Controller Q) (key : String) (w : World Q) : World Q :=
  ⟨c.queue.Done key w.queue, w.trace ++ [Call.Done key]⟩

/-- `c.queue.ShutDown()`. -/
def qShutDown (c : Controller Q) (w : World Q) : World Q :=
  ⟨c.queue.ShutDown w.queue, w.trace ++ [Call.ShutDown]⟩

/-- `c.queue.AddRateLimited(key)`. -/
def qAddRateLimited (c : Controller Q) (key : String) (w : World Q) : World Q :=
  ⟨c.queue.AddRateLimited key w.queue, w.trace ++ [Call.AddRateLimited key]⟩

/-- `c.queue.Forget(key)`. -/
def qForget (c : Controller Q) (key : String) (w : World Q) : World Q :=
  ⟨c.queue.Forget key w.queue, w.trace ++ [Call.Forget key]⟩

/-- `c.queue.NumRequeues(key)`. -/
def qNumRequeues (c : Controller Q) (key : String) (w : World Q) : Int × World Q :=
  (c.queue.NumRequeues key w.queue, ⟨w.queue, w.trace ++ [Call.NumRequeues key]⟩)

/-- `utilruntime.HandleError(err)`: the error-reporting sink. -/
def HandleError (err : Err) (w : World Q) : World Q :=
  w.log (Call.HandleError err)

/-! ## The controller -/

/-- `Controller.processItem`. -/
def processItem (c : Controller Q) (key : String) : Option Err :=
  match SplitMetaNamespaceKey key with
  | .error err => some err
  | .ok _ =>
    match c.informer.GetByKey key with
    | .error err => some (Err.fetchingObject key err)
    | .ok none => none
    | .ok (some _) => none

/-- `Controller.processNextItem`.  The deferred `c.queue.Done(key)` runs last. -/
def processNextItem (c : Controller Q) (w : World Q) : Outcome Bool (World Q) :=
  match c.queue.Get w.queue with
  | .blocks => .blocked (w.log Call.Get)
  | .shutdown q => .ret false ⟨q, w.trace ++ [Call.Get]⟩
  | .item key q =>
    let w1 : World Q := ⟨q, w.trace ++ [Call.Get]⟩
    let w2 := w1.log (Call.processItem key)
    let w3 :=
      match processItem c key with
      | none => qForget c key w2
      | some err =>
        let (n, w2a) := qNumRequeues c key w2
        if n < maxRetries then qAddRateLimited c key w2a
        else HandleError err (qForget c key w2a)
    .ret true (qDone c key w3)

/-- `Controller.runWorker`: `for c.processNextItem() {}`, with fuel for the loop. -/
def runWorker (c : Controller Q) : Nat → World Q → Outcome Unit (World Q)
  | 0, w => .outOfFuel w
  | fuel + 1, w =>
    match processNextItem c w with
    | .ret true w1 => runWorker c fuel w1
    | .ret false w1 => .ret () w1
    | .blocked w1 => .blocked w1
    | .outOfFuel w1 => .outOfFuel w1

/-- `Controller.syncItems`. -/
def syncItems (c : Controller Q) (w : World Q) : Option Err × World Q :=
  match c.List with
  | .error err => (some err, w.log Call.List)
  | .ok _ => (none, w.log Call.List)

/-- `Controller.processAllItems`. -/
def processAllItems (c : Controller Q) (w : World Q) : Option Err × World Q :=
  match syncItems c (w.log Call.processAllItems) with
  | (some err, w1) => (some err, w1)
  | (none, w1) => (none, w1)

/-- The outside world of one `Run`: `cacheSynced` is what
`cache.WaitForCacheSync(stopCh, c.HasSynced)` returns, and `stopCh i` tells whether the
stop channel is found closed the `i`-th time `wait.Until` looks at it. -/
structure Env where
  cacheSynced : Bool
  stopCh : Nat → Bool

/-- `wait.Until(f, period, stopCh)`: look at the stop channel, call `f`, then wait for the
period or the stop channel, and start over. -/
def waitUntil (f : World Q → Outcome Unit (World Q)) (stopCh : Nat → Bool) :
    Nat → Nat → World Q → Outcome Unit (World Q)
  | 0, _, w => .outOfFuel w
  | fuel + 1, i, w =>
    if stopCh i then .ret () w
    else
      match f w with
      | .ret () w1 =>
        if stopCh (i + 1) then .ret () w1 else waitUntil f stopCh fuel (i + 2) w1
      | .blocked w1 => .blocked w1
      | .outOfFuel w1 => .outOfFuel w1

/-- `Controller.Run`.  The deferred `c.queue.ShutDown()` runs when `Run` returns; the value
of `c.processAllItems()` is not used. -/
def Run (c : Controller Q) (env : Env) (fuel : Nat) (w : World Q) : Outcome Unit (World Q) :=
  let w1 := w.log Call.informerRun
  let w2 := w1.log Call.WaitForCacheSync
  if !env.cacheSynced then
    .ret () (qShutDown c (HandleError (Err.text "Timed out waiting for caches to sync") w2))
  else
    let w3 := (processAllItems c w2).2
    match waitUntil (runWorker c fuel) env.stopCh fuel 0 (w3.log Call.waitUntil) with
    | .ret () w4 => .ret () (qShutDown c w4)
    | .blocked w4 => .blocked w4
    | .outOfFuel w4 => .outOfFuel w4

/-! ## Event handlers registered in `New` -/

/-- The `AddFunc` handler. -/
def AddFunc (c : Controller Q) (obj : Obj) (w : World Q) : World Q :=
  match MetaNamespaceKeyFunc obj with
  | .ok key => qAdd c key w
  | .error _ => w

/-- The `UpdateFunc` handler: the key is computed from the new object. -/
def UpdateFunc (c : Controller Q) (_old new : Obj) (w : World Q) : World Q :=
  match MetaNamespaceKeyFunc new with
  | .ok key => qAdd c key w
  | .error _ => w

/-- The `DeleteFunc` handler. -/
def DeleteFunc (c : Controller Q) (obj : Obj) (w : World Q) : World Q :=
  match DeletionHandlingMetaNamespaceKeyFunc obj with
  | .ok key => qAdd c key w
  | .error _ => w

/-- Modelled from the spec: the tombstone the informer hands to `DeleteFunc` when it
learned of a delete only from a relist.  The informer belongs to the client library
(`k8s.io/client-go`), whose code is not part of the repository; it stores the last known
object under the Work Key it computed for it with `MetaNamespaceKeyFunc`. -/
def tombstoneFor (r : Resource) : Except Err Obj :=
  match MetaNamespaceKeyFunc (.resource r) with
  | .ok key => .ok (.deletedFinalStateUnknown key (.resource r))
  | .error err => .error err

/-! ## `spec.CreateResource` -/

/-- The fields of `apiextv1beta1.CustomResourceDefinition` that `CreateResource` sets. -/
structure CustomResourceDefinition where
  Name : String
  Group : String
  Version : String
  Scope : String
  Plural : String
  Kind : String
  deriving DecidableEq, Repr

/-- `apiextcs.Interface`: the `Create` call on custom resource definitions. -/
structure ApiextensionsInterface where
  Create : CustomResourceDefinition → Except Err CustomResourceDefinition

/-- A predicate in the role of `apierrors.IsAlreadyExists` (library code, not part of the
repository): the reason of an API status error is `AlreadyExists`. -/
def IsAlreadyExists : Err → Bool
  | .status reason _ => reason == "AlreadyExists"
  | _ => false

/-- The `resource` value built at the head of `spec.CreateResource`. -/
def resourceDefinition : CustomResourceDefinition :=
  ⟨ResourcePlural ++ "." ++ ResourceGroup, ResourceGroup, ResourceVersion,
    "Namespaced", ResourcePlural, "Resource"⟩

/-- `spec.CreateResource`, over the predicate the source names `apierrors.IsAlreadyExists`. -/
def CreateResource (isAlreadyExists : Err → Bool) (clientset : ApiextensionsInterface) :
    Option Err :=
  let resource := resourceDefinition
  let err : Option Err :=
    match clientset.Create resource with
    | .ok _ => none
    | .error e => some e
  match err with
  | some e => if isAlreadyExists e then none else err
  | none => err

/-! ## A work queue -/

/-- The state of the model work queue. -/
structure ModelQueue where
  /-- Keys waiting to be handed out, first in first out. -/
  queue : List String
  /-- Keys that need processing. -/
  dirty : List String
  /-- Keys handed out by `Get` and not yet `Done`. -/
  processing : List String
  /-- The retry count of each key. -/
  failures : String → Nat
  shuttingDown : Bool

/-- Modelled from the spec: `Add(key)`, a deduplicating enqueue.  A key already dirty is
not added again; a key in flight is only marked dirty. -/
def ModelQueue.Add (key : String) (q : ModelQueue) : ModelQueue :=
  if q.shuttingDown then q
  else if key ∈ q.dirty then q
  else if key ∈ q.processing then { q with dirty := key :: q.dirty }
  else { q with dirty := key :: q.dirty, queue := q.queue ++ [key] }

/-- Modelled from the spec: `Get()` hands out the first waiting key and marks it in
flight; with nothing waiting it reports shutdown when shut down and blocks otherwise. -/
def ModelQueue.Get (q : ModelQueue) : GetResult ModelQueue :=
  match q.queue with
  | [] => if q.shuttingDown then .shutdown q else .blocks
  | key :: rest =>
    .item key { q with queue := rest, processing := key :: q.processing,
                       dirty := q.dirty.filter (fun k => k ≠ key) }

/-- Modelled from the spec: `Done(key)` marks the key no longer in flight and re-adds it
when it is dirty. -/
def ModelQueue.Done (key : String) (q : ModelQueue) : ModelQueue :=
  let processing := q.processing.filter (fun k => k ≠ key)
  if key ∈ q.dirty then { q with processing := processing, queue := q.queue ++ [key] }
  else { q with processing := processing }

/-- Modelled from the spec: `ShutDown()`. -/
def ModelQueue.ShutDown (q : ModelQueue) : ModelQueue :=
  { q with shuttingDown := true }

/-- Modelled from the spec: `Forget(key)` clears the retry count. -/
def ModelQueue.Forget (key : String) (q : ModelQueue) : ModelQueue :=
  { q with failures := fun k => if k = key then 0 else q.failures k }

/-- Modelled from the spec: `NumRequeues(key)`. -/
def ModelQueue.NumRequeues (key : String) (q : ModelQueue) : Int :=
  (q.failures key : Int)

/-- Modelled from the spec: `AddRateLimited(key)` increments the retry count by one and
re-enqueues the key; the backoff delay is not modelled. -/
def ModelQueue.AddRateLimited (key : String) (q : ModelQueue) : ModelQueue :=
  ModelQueue.Add key { q with failures := fun k => if k = key then q.failures k + 1 else q.failures k }

/-- Modelled from the spec: the rate-limited work queue of section 4.3, which the source
takes from the client library (`workqueue.NewRateLimitingQueue`), whose code is not part
of the repository. -/
def modelQueue : RateLimitingInterface ModelQueue :=
  ⟨ModelQueue.Add, ModelQueue.Get, ModelQueue.Done, ModelQueue.ShutDown,
    ModelQueue.AddRateLimited, ModelQueue.Forget, ModelQueue.NumRequeues⟩

/-- The world a call left behind, however it ended. -/
def Outcome.world {α W : Type} : Outcome α W → W
  | .ret _ w => w
  | .blocked w => w
  | .outOfFuel w => w

/-- The world after `n` turns of the loop of `runWorker` in which `processNextItem`
returned `true`; `none` when one of them did not. -/
def iterations (c : Controller Q) : Nat → World Q → Option (World Q)
  | 0, w => some w
  | n + 1, w =>
    match processNextItem c w with
    | .ret true w1 => iterations c n w1
    | _ => none

/-- The calls of one iteration between `processItem` and the deferred `Done`. -/
def decisionCalls (c : Controller Q) (key : String) (q : Q) : List Call :=
  match processItem c key with
  | none => [Call.Forget key]
  | some err =>
    if c.queue.NumRequeues key q < maxRetries then
      [Call.NumRequeues key, Call.AddRateLimited key]
    else [Call.NumRequeues key, Call.Forget key, Call.HandleError err]

/-- The calls of an iteration that sends `key` back for a retry. -/
def retryCalls (key : String) : List Call :=
  [Call.Get, Call.processItem key, Call.NumRequeues key, Call.AddRateLimited key,
    Call.Done key]

/-- The calls of an iteration that gives `key` up and reports `e`. -/
def giveUpCalls (key : String) (e : Err) : List Call :=
  [Call.Get, Call.processItem key, Call.NumRequeues key, Call.Forget key,
    Call.HandleError e, Call.Done key]

/-- A trace cut into iterations: a new piece begins at every `Get`. -/
def segments : List Call → List (List Call)
  | [] => []
  | x :: xs =>
    match segments xs with
    | [] => [[x]]
    | s :: rest => if s.head? = some Call.Get then [x] :: s :: rest else (x :: s) :: rest

/-- The iterations of a trace in which `key` was delivered to `processItem`. -/
def deliveriesOf (key : String) (t : List Call) : List (List Call) :=
  (segments t).filter (fun s => decide (Call.processItem key ∈ s))

/-! ## Sample inputs -/

/-- A store that holds no object and never fails. -/
def emptyInformer : SharedIndexInformer :=
  ⟨fun _ => .ok none⟩

/-- A controller over the model queue whose store is empty and whose `List` call fails. -/
def sampleController : Controller ModelQueue :=
  ⟨modelQueue, emptyInformer, .error (Err.text "list failed")⟩

/-- A model queue holding the given keys, freshly added, with all retry counts at zero. -/
def queueOf (keys : List String) : ModelQueue :=
  ⟨keys, keys, [], fun _ => 0, false⟩

/-- A world over `queueOf keys` with an empty trace. -/
def worldOf (keys : List String) : World ModelQueue :=
  ⟨queueOf keys, []⟩

/-! ## One iteration of the worker -/

theorem processNextItem_of_shutdown (c : Controller Q) (w : World Q) (q : Q)
    (hget : c.queue.Get w.queue = .shutdown q) :
    processNextItem c w = .ret false ⟨q, w.trace ++ [Call.Get]⟩ := by
  simp [processNextItem, hget]

theorem processNextItem_of_blocks (c : Controller Q) (w : World Q)
    (hget : c.queue.Get w.queue = .blocks) :
    processNextItem c w = .blocked ⟨w.queue, w.trace ++ [Call.Get]⟩ := by
  simp [processNextItem, hget, World.log]

theorem processNextItem_of_nil (c : Controller Q) (w : World Q) (key : String) (q : Q)
    (hget : c.queue.Get w.queue = .item key q) (hok : processItem c key = none) :
    processNextItem c w = .ret true
      ⟨c.queue.Done key (c.queue.Forget key q),
        w.trace ++ [Call.Get, Call.processItem key, Call.Forget key, Call.Done key]⟩ := by
  simp [processNextItem, hget, hok, qForget, qDone, World.log]

theorem processNextItem_of_retry (c : Controller Q) (w : World Q) (key : String) (q : Q)
    (e : Err) (hget : c.queue.Get w.queue = .item key q) (herr : processItem c key = some e)
    (h : c.queue.NumRequeues key q < 3) :
    processNextItem c w = .ret true
      ⟨c.queue.Done key (c.queue.AddRateLimited key q),
        w.trace ++ [Call.Get, Call.processItem key, Call.NumRequeues key,
          Call.AddRateLimited key, Call.Done key]⟩ := by
  simp [processNextItem, hget, herr, qNumRequeues, qAddRateLimited, qDone, World.log,
    maxRetries, h]

theorem processNextItem_of_give_up (c : Controller Q) (w : World Q) (key : String) (q : Q)
    (e : Err) (hget : c.queue.Get w.queue = .item key q) (herr : processItem c key = some e)
    (h : 3 ≤ c.queue.NumRequeues key q) :
    processNextItem c w = .ret true
      ⟨c.queue.Done key (c.queue.Forget key q),
        w.trace ++ [Call.Get, Call.processItem key, Call.NumRequeues key,
          Call.Forget key, Call.HandleError e, Call.Done key]⟩ := by
  have h1 : ¬ c.queue.NumRequeues key q < 3 := not_lt.mpr h
  simp [processNextItem, hget, herr, qNumRequeues, qForget, HandleError, qDone,
    World.log, maxRetries, h1]

theorem processNextItem_of_item (c : Controller Q) (w : World Q) (key : String) (q : Q)
    (hget : c.queue.Get w.queue = .item key q) :
    ∃ w1, processNextItem c w = .ret true w1 ∧
      w1.trace = w.trace ++ [Call.Get, Call.processItem key] ++ decisionCalls c key q
        ++ [Call.Done key] := by
  cases hp : processItem c key with
  | none =>
    exact ⟨_, processNextItem_of_nil c w key q hget hp, by simp [decisionCalls, hp]⟩
  | some e =>
    by_cases h : c.queue.NumRequeues key q < 3
    · exact ⟨_, processNextItem_of_retry c w key q e hget hp h, by
        simp [decisionCalls, hp, h, maxRetries]⟩
    · exact ⟨_, processNextItem_of_give_up c w key q e hget hp (not_lt.mp h), by
        simp [decisionCalls, hp, h, maxRetries]⟩

theorem decisionCalls_mem (c : Controller Q) (key : String) (q : Q) (x : Call)
    (hx : x ∈ decisionCalls c key q) :
    x ≠ Call.Get ∧ (∀ k, x ≠ Call.processItem k) ∧ (∀ k, x ≠ Call.Done k) := by
  unfold decisionCalls at hx
  split at hx
  · simp at hx; subst hx; simp
  · split at hx
    · simp at hx; rcases hx with rfl | rfl <;> simp
    · simp at hx; rcases hx with rfl | rfl | rfl <;> simp

/-- C3 (success path).  When `queue.Get` hands out `key` and `processItem` returns no
error, `processNextItem` returns `true`, and after `Get` and `processItem` it calls exactly
`Forget(key)` and then `Done(key)`: neither `AddRateLimited` nor `HandleError` is called. -/
theorem processNextItem_success (c : Controller Q) (w : World Q) (key : String) (q : Q)
    (hget : c.queue.Get w.queue = .item key q) (hok : processItem c key = none) :
    processNextItem c w = .ret true
      ⟨c.queue.Done key (c.queue.Forget key q),
        w.trace ++ [Call.Get, Call.processItem key, Call.Forget key, Call.Done key]⟩ :=
  processNextItem_of_nil c w key q hget hok

/-- C3 at the key `default/a`, absent from the store (the delete path). -/
theorem processNextItem_success_witness :
    processNextItem sampleController (worldOf ["default/a"]) = .ret true
      ⟨modelQueue.Done "default/a" (modelQueue.Forget "default/a"
          ⟨[], [], ["default/a"], fun _ => 0, false⟩),
        [Call.Get, Call.processItem "default/a", Call.Forget "default/a",
          Call.Done "default/a"]⟩ :=
  processNextItem_success sampleController (worldOf ["default/a"]) "default/a"
    ⟨[], [], ["default/a"], fun _ => 0, false⟩ rfl rfl

/-- C4 (failure decision).  When `queue.Get` hands out `key` and `processItem` returns the
error `e`, `processNextItem` returns `true` and, after `Get`, `processItem` and the
`NumRequeues(key)` query: with `NumRequeues(key) < 3` it calls `AddRateLimited(key)` then
`Done(key)` and nothing else; with `NumRequeues(key) ≥ 3` it calls `Forget(key)`,
`HandleError(e)` with that same error, then `Done(key)`, and no `AddRateLimited`.  Hence
`AddRateLimited(key)` is called if and only if `NumRequeues(key) < 3`. -/
theorem processNextItem_failure (c : Controller Q) (w : World Q) (key : String) (q : Q)
    (e : Err) (hget : c.queue.Get w.queue = .item key q) (herr : processItem c key = some e) :
    maxRetries = 3 ∧
    (c.queue.NumRequeues key q < 3 →
      processNextItem c w = .ret true
        ⟨c.queue.Done key (c.queue.AddRateLimited key q),
          w.trace ++ [Call.Get, Call.processItem key, Call.NumRequeues key,
            Call.AddRateLimited key, Call.Done key]⟩) ∧
    (3 ≤ c.queue.NumRequeues key q →
      processNextItem c w = .ret true
        ⟨c.queue.Done key (c.queue.Forget key q),
          w.trace ++ [Call.Get, Call.processItem key, Call.NumRequeues key,
            Call.Forget key, Call.HandleError e, Call.Done key]⟩) ∧
    (Call.AddRateLimited key ∈ (processNextItem c w).world.trace.drop w.trace.length ↔
      c.queue.NumRequeues key q < 3) := by
  refine ⟨rfl, processNextItem_of_retry c w key q e hget herr,
    processNextItem_of_give_up c w key q e hget herr, ?_⟩
  by_cases h : c.queue.NumRequeues key q < 3
  · simp [processNextItem_of_retry c w key q e hget herr h, Outcome.world, h]
  · simp [processNextItem_of_give_up c w key q e hget herr (not_lt.mp h), Outcome.world, h]

/-- C4 at the malformed key `a/b/c` on its first delivery. -/
theorem processNextItem_failure_witness :
    Call.AddRateLimited "a/b/c" ∈
      (processNextItem sampleController (worldOf ["a/b/c"])).world.trace.drop 0 :=
  (processNextItem_failure sampleController (worldOf ["a/b/c"]) "a/b/c"
    ⟨[], [], ["a/b/c"], fun _ => 0, false⟩ (Err.unexpectedKeyFormat "a/b/c") rfl rfl).2.2.2.mpr
    (by decide)

/-- C2, as the code has it.  A key that `SplitMetaNamespaceKey` cannot split makes
`processItem` return the split error, and `processNextItem` treats that error like any
other: while `NumRequeues(key) < 3` it calls `AddRateLimited(key)` and `Done(key)`, so the
key is retried; only with `NumRequeues(key) ≥ 3` is it dropped (`Forget`, `HandleError`
with the split error, `Done`). -/
theorem processNextItem_malformed_key (c : Controller Q) (w : World Q) (key : String)
    (q : Q) (e : Err) (hget : c.queue.Get w.queue = .item key q)
    (hsplit : SplitMetaNamespaceKey key = .error e) :
    e = Err.unexpectedKeyFormat key ∧ processItem c key = some e ∧
    (c.queue.NumRequeues key q < 3 →
      processNextItem c w = .ret true
        ⟨c.queue.Done key (c.queue.AddRateLimited key q),
          w.trace ++ [Call.Get, Call.processItem key, Call.NumRequeues key,
            Call.AddRateLimited key, Call.Done key]⟩) ∧
    (3 ≤ c.queue.NumRequeues key q →
      processNextItem c w = .ret true
        ⟨c.queue.Done key (c.queue.Forget key q),
          w.trace ++ [Call.Get, Call.processItem key, Call.NumRequeues key,
            Call.Forget key, Call.HandleError e, Call.Done key]⟩) := by
  have herr : processItem c key = some e := by simp [processItem, hsplit]
  have he : e = Err.unexpectedKeyFormat key := by
    unfold SplitMetaNamespaceKey at hsplit
    split at hsplit
    · cases hsplit
    · cases hsplit
    · simpa using hsplit.symm
  exact ⟨he, herr, processNextItem_of_retry c w key q e hget herr,
    processNextItem_of_give_up c w key q e hget herr⟩

/-- C2 at the key `a/b/c`: on its first delivery it is sent back through
`AddRateLimited`. -/
theorem processNextItem_malformed_key_witness :
    processNextItem sampleController (worldOf ["a/b/c"]) = .ret true
      ⟨modelQueue.Done "a/b/c" (modelQueue.AddRateLimited "a/b/c"
          ⟨[], [], ["a/b/c"], fun _ => 0, false⟩),
        [Call.Get, Call.processItem "a/b/c", Call.NumRequeues "a/b/c",
          Call.AddRateLimited "a/b/c", Call.Done "a/b/c"]⟩ :=
  (processNextItem_malformed_key sampleController (worldOf ["a/b/c"]) "a/b/c"
    ⟨[], [], ["a/b/c"], fun _ => 0, false⟩ (Err.unexpectedKeyFormat "a/b/c") rfl rfl).2.2.1
    (by decide)

/-- C2 as stated fails: `a/b/c` cannot be split, yet on its first delivery
`processNextItem` calls `AddRateLimited("a/b/c")`, calls no `Forget` and no `HandleError`,
and leaves the key waiting in the queue with a retry count of one. -/
theorem malformed_key_is_retried :
    SplitMetaNamespaceKey "a/b/c" = .error (Err.unexpectedKeyFormat "a/b/c") ∧
    (processNextItem sampleController (worldOf ["a/b/c"])).world.trace =
      [Call.Get, Call.processItem "a/b/c", Call.NumRequeues "a/b/c",
        Call.AddRateLimited "a/b/c", Call.Done "a/b/c"] ∧
    (processNextItem sampleController (worldOf ["a/b/c"])).world.queue.queue = ["a/b/c"] ∧
    (processNextItem sampleController (worldOf ["a/b/c"])).world.queue.failures "a/b/c" = 1 :=
  ⟨rfl, rfl, rfl, rfl⟩

/-- C10.  For a key that `SplitMetaNamespaceKey` splits and for which `GetByKey` returns
no error, `processItem` returns `nil`, whether the object exists in the store or not;
hence `processNextItem` takes the success path for it: `Forget(key)` then `Done(key)`,
no `AddRateLimited`, no `HandleError`. -/
theorem processItem_nil_of_split_of_store (c : Controller Q) (key : String)
    (p : String × String) (o : Option Resource)
    (hsplit : SplitMetaNamespaceKey key = .ok p)
    (hstore : c.informer.GetByKey key = .ok o) :
    processItem c key = none ∧
    ∀ (w : World Q) (q : Q), c.queue.Get w.queue = .item key q →
      processNextItem c w = .ret true
        ⟨c.queue.Done key (c.queue.Forget key q),
          w.trace ++ [Call.Get, Call.processItem key, Call.Forget key, Call.Done key]⟩ := by
  have hok : processItem c key = none := by
    cases o <;> simp [processItem, hsplit, hstore]
  exact ⟨hok, fun w q hget => processNextItem_of_nil c w key q hget hok⟩

/-- C10 at the key `default/a` with an empty store. -/
theorem processItem_nil_of_split_of_store_witness :
    processItem sampleController "default/a" = none :=
  (processItem_nil_of_split_of_store sampleController "default/a" ("default", "a") none
    rfl rfl).1

/-- C8.  `processNextItem` returns `false` exactly when `queue.Get` reports shutdown, and
then `Get` is its only call.  When `Get` hands out a key it returns `true` whatever
`processItem` returned, having called `Get` once, `processItem` once on that key, and
`Done` once on that key as its last call.  `runWorker` returns exactly when, after some
number of iterations that each got an item, `Get` reports shutdown. -/
theorem processNextItem_loop_exit (c : Controller Q) :
    (∀ w : World Q, (∃ w1, processNextItem c w = .ret false w1) ↔
      ∃ q, c.queue.Get w.queue = .shutdown q) ∧
    (∀ (w : World Q) (q : Q), c.queue.Get w.queue = .shutdown q →
      processNextItem c w = .ret false ⟨q, w.trace ++ [Call.Get]⟩) ∧
    (∀ (w : World Q) (key : String) (q : Q), c.queue.Get w.queue = .item key q →
      ∃ mid w1, processNextItem c w = .ret true w1 ∧
        w1.trace = w.trace ++ [Call.Get, Call.processItem key] ++ mid ++ [Call.Done key] ∧
        ∀ x ∈ mid, x ≠ Call.Get ∧ (∀ k, x ≠ Call.processItem k) ∧ (∀ k, x ≠ Call.Done k)) ∧
    (∀ (fuel : Nat) (w w1 : World Q), runWorker c fuel w = .ret () w1 ↔
      ∃ n, n < fuel ∧ ∃ wn q, iterations c n w = some wn ∧
        c.queue.Get wn.queue = .shutdown q ∧ w1 = ⟨q, wn.trace ++ [Call.Get]⟩) := by
  refine ⟨?_, ?_, ?_, ?_⟩
  · intro w
    constructor
    · rintro ⟨w1, h1⟩
      cases hget : c.queue.Get w.queue with
      | item key q =>
        obtain ⟨w2, h2, _⟩ := processNextItem_of_item c w key q hget
        rw [h2] at h1
        cases h1
      | shutdown q => exact ⟨q, rfl⟩
      | blocks =>
        rw [processNextItem_of_blocks c w hget] at h1
        cases h1
    · rintro ⟨q, hq⟩
      exact ⟨_, processNextItem_of_shutdown c w q hq⟩
  · exact fun w q hq => processNextItem_of_shutdown c w q hq
  · intro w key q hget
    obtain ⟨w1, h1, h2⟩ := processNextItem_of_item c w key q hget
    exact ⟨decisionCalls c key q, w1, h1, h2, fun x hx => decisionCalls_mem c key q x hx⟩
  · intro fuel
    induction fuel with
    | zero =>
      intro w w1
      simp [runWorker]
    | succ fuel ih =>
      intro w w1
      cases hget : c.queue.Get w.queue with
      | item key q =>
        obtain ⟨w2, h2, _⟩ := processNextItem_of_item c w key q hget
        simp only [runWorker, h2]
        rw [ih]
        constructor
        · rintro ⟨n, hn, wn, q1, h3, h4, h5⟩
          exact ⟨n + 1, by omega, wn, q1, by simpa [iterations, h2] using h3, h4, h5⟩
        · rintro ⟨n, hn, wn, q1, h3, h4, h5⟩
          cases n with
          | zero =>
            simp only [iterations, Option.some.injEq] at h3
            subst h3
            rw [hget] at h4
            cases h4
          | succ n =>
            exact ⟨n, by omega, wn, q1, by simpa [iterations, h2] using h3, h4, h5⟩
      | shutdown q =>
        have h2 := processNextItem_of_shutdown c w q hget
        simp only [runWorker, h2]
        constructor
        · intro h
          cases h
          exact ⟨0, by omega, w, q, rfl, hget, rfl⟩
        · rintro ⟨n, hn, wn, q1, h3, h4, h5⟩
          cases n with
          | zero =>
            simp only [iterations, Option.some.injEq] at h3
            subst h3
            rw [hget] at h4
            cases h4
            rw [h5]
          | succ n => simp [iterations, h2] at h3
      | blocks =>
        have h2 := processNextItem_of_blocks c w hget
        simp only [runWorker, h2]
        constructor
        · intro h
          cases h
        · rintro ⟨n, hn, wn, q1, h3, h4, h5⟩
          cases n with
          | zero =>
            simp only [iterations, Option.some.injEq] at h3
            subst h3
            rw [hget] at h4
            cases h4
          | succ n => simp [iterations, h2] at h3

/-! ## Startup -/

theorem processNextItem_trace (c : Controller Q) (w : World Q) :
    ∃ t, (processNextItem c w).world.trace = w.trace ++ Call.Get :: t := by
  cases hget : c.queue.Get w.queue with
  | item key q =>
    obtain ⟨w1, h1, h2⟩ := processNextItem_of_item c w key q hget
    exact ⟨Call.processItem key :: (decisionCalls c key q ++ [Call.Done key]), by
      simp [h1, Outcome.world, h2]⟩
  | shutdown q => exact ⟨[], by simp [processNextItem_of_shutdown c w q hget, Outcome.world]⟩
  | blocks => exact ⟨[], by simp [processNextItem_of_blocks c w hget, Outcome.world]⟩

theorem runWorker_trace (c : Controller Q) (fuel : Nat) :
    ∀ w : World Q, ∃ t, (runWorker c fuel w).world.trace = w.trace ++ t := by
  induction fuel with
  | zero => exact fun w => ⟨[], by simp [runWorker, Outcome.world]⟩
  | succ fuel ih =>
    intro w
    obtain ⟨t, ht⟩ := processNextItem_trace c w
    cases hp : processNextItem c w with
    | ret b w1 =>
      rw [hp] at ht
      cases b with
      | true =>
        obtain ⟨t1, ht1⟩ := ih w1
        refine ⟨Call.Get :: t ++ t1, ?_⟩
        simp only [runWorker, hp, ht1]
        simp only [Outcome.world] at ht
        simp [ht]
      | false => exact ⟨Call.Get :: t, by simpa [runWorker, hp] using ht⟩
    | blocked w1 =>
      rw [hp] at ht
      exact ⟨Call.Get :: t, by simpa [runWorker, hp] using ht⟩
    | outOfFuel w1 =>
      rw [hp] at ht
      exact ⟨Call.Get :: t, by simpa [runWorker, hp] using ht⟩

theorem runWorker_trace_starts (c : Controller Q) (fuel : Nat) (w : World Q) :
    ∃ t, (runWorker c (fuel + 1) w).world.trace = w.trace ++ Call.Get :: t := by
  obtain ⟨t, ht⟩ := processNextItem_trace c w
  cases hp : processNextItem c w with
  | ret b w1 =>
    rw [hp] at ht
    cases b with
    | true =>
      obtain ⟨t1, ht1⟩ := runWorker_trace c fuel w1
      refine ⟨t ++ t1, ?_⟩
      simp only [runWorker, hp, ht1]
      simp only [Outcome.world] at ht
      simp [ht]
    | false => exact ⟨t, by simpa [runWorker, hp] using ht⟩
  | blocked w1 =>
    rw [hp] at ht
    exact ⟨t, by simpa [runWorker, hp] using ht⟩
  | outOfFuel w1 =>
    rw [hp] at ht
    exact ⟨t, by simpa [runWorker, hp] using ht⟩

theorem waitUntil_trace (f : World Q → Outcome Unit (World Q)) (stopCh : Nat → Bool)
    (hf : ∀ w, ∃ t, (f w).world.trace = w.trace ++ t) (fuel : Nat) :
    ∀ (i : Nat) (w : World Q), ∃ t, (waitUntil f stopCh fuel i w).world.trace = w.trace ++ t := by
  induction fuel with
  | zero => exact fun i w => ⟨[], by simp [waitUntil, Outcome.world]⟩
  | succ fuel ih =>
    intro i w
    unfold waitUntil
    by_cases hs : stopCh i = true
    · exact ⟨[], by simp [hs, Outcome.world]⟩
    · simp only [hs, Bool.false_eq_true, if_false]
      obtain ⟨t, ht⟩ := hf w
      cases hp : f w with
      | ret u w1 =>
        rw [hp] at ht
        simp only [Outcome.world] at ht
        by_cases hs1 : stopCh (i + 1) = true
        · exact ⟨t, by simp [hs1, Outcome.world, ht]⟩
        · obtain ⟨t1, ht1⟩ := ih (i + 2) w1
          exact ⟨t ++ t1, by simp [hs1, ht1, ht]⟩
      | blocked w1 =>
        rw [hp] at ht
        exact ⟨t, by simpa using ht⟩
      | outOfFuel w1 =>
        rw [hp] at ht
        exact ⟨t, by simpa using ht⟩

/-- C5.  When `WaitForCacheSync` returns `false`, `Run` reports the error
`Timed out waiting for caches to sync` through `HandleError` and returns; the only other
call is the deferred `queue.ShutDown()`.  Neither the sweep (`processAllItems`, `List`)
nor the worker loop (`wait.Until`, `Get`, `processItem`) is reached. -/
theorem Run_cache_sync_failure (c : Controller Q) (env : Env) (fuel : Nat) (w : World Q)
    (hsync : env.cacheSynced = false) :
    Run c env fuel w = .ret ()
      ⟨c.queue.ShutDown w.queue,
        w.trace ++ [Call.informerRun, Call.WaitForCacheSync,
          Call.HandleError (Err.text "Timed out waiting for caches to sync"),
          Call.ShutDown]⟩ := by
  simp [Run, hsync, qShutDown, HandleError, World.log]

/-- C5 with two keys waiting in the queue: none of them is processed. -/
theorem Run_cache_sync_failure_witness :
    Run sampleController ⟨false, fun _ => false⟩ 10 (worldOf ["default/a", "default/b"]) =
      .ret ()
        ⟨modelQueue.ShutDown (queueOf ["default/a", "default/b"]),
          [Call.informerRun, Call.WaitForCacheSync,
            Call.HandleError (Err.text "Timed out waiting for caches to sync"),
            Call.ShutDown]⟩ :=
  Run_cache_sync_failure sampleController ⟨false, fun _ => false⟩ 10
    (worldOf ["default/a", "default/b"]) rfl

/-- C6, as the code has it.  When the cache has synced and the `List` call of the sweep
fails with `e`, `processAllItems` returns `e`, and `Run` drops that value: the calls made
before the worker loop are `informer.Run`, `WaitForCacheSync`, `processAllItems` and
`List`, with no `HandleError`.  `Run` then enters `wait.Until(c.runWorker, ...)` and ends
only as that loop ends; when the stop channel is open, the worker makes its first
`queue.Get`. -/
theorem Run_sweep_failure (c : Controller Q) (env : Env) (fuel : Nat) (w : World Q) (e : Err)
    (hsync : env.cacheSynced = true) (hlist : c.List = .error e) :
    (processAllItems c ⟨w.queue, w.trace ++ [Call.informerRun, Call.WaitForCacheSync]⟩).1
      = some e ∧
    Run c env fuel w =
      (match waitUntil (runWorker c fuel) env.stopCh fuel 0
          ⟨w.queue, w.trace ++ [Call.informerRun, Call.WaitForCacheSync,
            Call.processAllItems, Call.List, Call.waitUntil]⟩ with
        | .ret () w4 => .ret () (qShutDown c w4)
        | .blocked w4 => .blocked w4
        | .outOfFuel w4 => .outOfFuel w4) ∧
    (0 < fuel → env.stopCh 0 = false →
      ∃ t, (Run c env fuel w).world.trace =
        w.trace ++ [Call.informerRun, Call.WaitForCacheSync, Call.processAllItems,
          Call.List, Call.waitUntil, Call.Get] ++ t) := by
  have hrun : Run c env fuel w =
      (match waitUntil (runWorker c fuel) env.stopCh fuel 0
          ⟨w.queue, w.trace ++ [Call.informerRun, Call.WaitForCacheSync,
            Call.processAllItems, Call.List, Call.waitUntil]⟩ with
        | .ret () w4 => .ret () (qShutDown c w4)
        | .blocked w4 => .blocked w4
        | .outOfFuel w4 => .outOfFuel w4) := by
    simp [Run, hsync, processAllItems, syncItems, hlist, World.log]
  refine ⟨by simp [processAllItems, syncItems, hlist, World.log], hrun, ?_⟩
  intro hfuel hstop
  obtain ⟨k, rfl⟩ : ∃ k, fuel = k + 1 := ⟨fuel - 1, by omega⟩
  rw [hrun]
  generalize hw5 : (⟨w.queue, w.trace ++ [Call.informerRun, Call.WaitForCacheSync,
    Call.processAllItems, Call.List, Call.waitUntil]⟩ : World Q) = w5
  have ht5 : w5.trace = w.trace ++ [Call.informerRun, Call.WaitForCacheSync,
      Call.processAllItems, Call.List, Call.waitUntil] := by rw [← hw5]
  obtain ⟨t, ht⟩ := runWorker_trace_starts c k w5
  unfold waitUntil
  simp only [hstop, Bool.false_eq_true, if_false]
  cases hp : runWorker c (k + 1) w5 with
  | ret u w1 =>
    rw [hp] at ht
    simp only [Outcome.world] at ht
    by_cases hs1 : env.stopCh (0 + 1) = true
    · exact ⟨t ++ [Call.ShutDown], by simp [hs1, Outcome.world, qShutDown, ht, ht5]⟩
    · simp only [hs1, Bool.false_eq_true, if_false]
      obtain ⟨t1, ht1⟩ := waitUntil_trace (runWorker c (k + 1)) env.stopCh
        (runWorker_trace c (k + 1)) k (0 + 2) w1
      cases hq : waitUntil (runWorker c (k + 1)) env.stopCh k (0 + 2) w1 with
      | ret u1 w2 =>
        rw [hq] at ht1
        simp only [Outcome.world] at ht1
        exact ⟨t ++ t1 ++ [Call.ShutDown], by simp [Outcome.world, qShutDown, ht1, ht, ht5]⟩
      | blocked w2 =>
        rw [hq] at ht1
        simp only [Outcome.world] at ht1
        exact ⟨t ++ t1, by simp [Outcome.world, ht1, ht, ht5]⟩
      | outOfFuel w2 =>
        rw [hq] at ht1
        simp only [Outcome.world] at ht1
        exact ⟨t ++ t1, by simp [Outcome.world, ht1, ht, ht5]⟩
  | blocked w1 =>
    rw [hp] at ht
    simp only [Outcome.world] at ht
    exact ⟨t, by simp [Outcome.world, ht, ht5]⟩
  | outOfFuel w1 =>
    rw [hp] at ht
    simp only [Outcome.world] at ht
    exact ⟨t, by simp [Outcome.world, ht, ht5]⟩

/-- C6 with a failing `List` call and one key waiting: the worker loop runs. -/
theorem Run_sweep_failure_witness :
    ∃ t, (Run sampleController ⟨true, fun _ => false⟩ 3 (worldOf ["default/a"])).world.trace =
      [] ++ [Call.informerRun, Call.WaitForCacheSync, Call.processAllItems,
        Call.List, Call.waitUntil, Call.Get] ++ t :=
  (Run_sweep_failure sampleController ⟨true, fun _ => false⟩ 3 (worldOf ["default/a"])
    (Err.text "list failed") rfl rfl).2.2 (by decide) rfl

/-- C6 as stated fails: the cache has synced, `List` fails with `list failed`, the sweep
returns that error, and `Run` never passes it to `HandleError`; the worker loop runs and
processes the waiting key. -/
theorem sweep_error_is_not_surfaced :
    (processAllItems sampleController (worldOf ["default/a"])).1 = some (Err.text "list failed") ∧
    (Run sampleController ⟨true, fun _ => false⟩ 3 (worldOf ["default/a"])).world.trace =
      [Call.informerRun, Call.WaitForCacheSync, Call.processAllItems, Call.List,
        Call.waitUntil, Call.Get, Call.processItem "default/a", Call.Forget "default/a",
        Call.Done "default/a", Call.Get] ∧
    Call.HandleError (Err.text "list failed") ∉
      (Run sampleController ⟨true, fun _ => false⟩ 3 (worldOf ["default/a"])).world.trace :=
  ⟨rfl, rfl, by decide⟩

/-! ## `CreateResource` -/

/-- C9.  `CreateResource` returns `nil` if and only if the `Create` call returned no error
or returned an error for which `IsAlreadyExists` holds; every other error of `Create` is
returned unchanged. -/
theorem CreateResource_nil_iff (isAlreadyExists : Err → Bool)
    (clientset : ApiextensionsInterface) :
    (CreateResource isAlreadyExists clientset = none ↔
      (∃ crd, clientset.Create resourceDefinition = .ok crd) ∨
      ∃ e, clientset.Create resourceDefinition = .error e ∧ isAlreadyExists e = true) ∧
    (∀ e, clientset.Create resourceDefinition = .error e → isAlreadyExists e = false →
      CreateResource isAlreadyExists clientset = some e) := by
  cases h : clientset.Create resourceDefinition with
  | ok crd => simp [CreateResource, h]
  | error e => by_cases ha : isAlreadyExists e = true <;> simp [CreateResource, h, ha]

/-- C9 for a server that answers `Create` with a `Forbidden` status: the error comes back
as it is. -/
theorem CreateResource_nil_iff_witness :
    CreateResource IsAlreadyExists ⟨fun _ => .error (Err.status "Forbidden" "no access")⟩ =
      some (Err.status "Forbidden" "no access") :=
  (CreateResource_nil_iff IsAlreadyExists
    ⟨fun _ => .error (Err.status "Forbidden" "no access")⟩).2 _ rfl rfl

/-! ## Work keys -/

theorem splitOnChar_of_not_mem (sep : Char) (l : List Char) (h : sep ∉ l) :
    splitOnChar sep l = [l] := by
  induction l with
  | nil => rfl
  | cons a l ih =>
    have h1 : a ≠ sep := fun h2 => h (by simp [h2])
    have h3 : sep ∉ l := fun h2 => h (by simp [h2])
    simp [splitOnChar, h1, ih h3]

theorem splitOnChar_append (sep : Char) (a b : List Char) (h : sep ∉ a) :
    splitOnChar sep (a ++ sep :: b) = a :: splitOnChar sep b := by
  induction a with
  | nil => simp [splitOnChar]
  | cons x a ih =>
    have h1 : x ≠ sep := fun h2 => h (by simp [h2])
    have h3 : sep ∉ a := fun h2 => h (by simp [h2])
    simp [splitOnChar, h1, ih h3]

theorem SplitMetaNamespaceKey_join (ns name : String) (hns : '/' ∉ ns.data)
    (hname : '/' ∉ name.data) :
    SplitMetaNamespaceKey (ns ++ "/" ++ name) = .ok (ns, name) := by
  have hd : (ns ++ "/" ++ name).data = ns.data ++ '/' :: name.data := by
    simp [String.data_append]
  unfold SplitMetaNamespaceKey
  rw [hd, splitOnChar_append '/' ns.data name.data hns,
    splitOnChar_of_not_mem '/' name.data hname]

theorem length_pos_iff_ne_empty (s : String) : s.length > 0 ↔ s ≠ "" := by
  cases s with
  | mk l =>
    cases l with
    | nil => simp [String.length]
    | cons a l =>
      simp only [String.length, List.length_cons, gt_iff_lt, Nat.zero_lt_succ, ne_eq, true_iff]
      intro h
      have h1 := congrArg String.data h
      simp at h1

/-- C7.  For a resource, the Add, Update and Delete handlers each make one call
`queue.Add(key)` with `key = namespace/name`, or `name` alone when the namespace is empty.
Update takes the key from the new object whatever the old one is; Delete enqueues the key
stored in a tombstone, which for the tombstone the informer builds is that same key.  Two
resources that agree on (namespace, name) lead to the same call whatever their spec,
status and resource version.  On the model queue the key is then waiting in the queue.
For a non-empty namespace and name without `/`, the split made in `processItem` on that
key returns exactly (namespace, name), so `processItem` goes on to the store lookup. -/
theorem work_key_round_trip (c : Controller Q) (cm : Controller ModelQueue) :
    (∀ r : Resource, MetaNamespaceKeyFunc (.resource r) =
      .ok (if r.Namespace = "" then r.Name else r.Namespace ++ "/" ++ r.Name)) ∧
    (∀ (r : Resource) (old : Obj) (w : World Q) (key : String),
      key = (if r.Namespace = "" then r.Name else r.Namespace ++ "/" ++ r.Name) →
        AddFunc c (.resource r) w =
          ⟨c.queue.Add key w.queue, w.trace ++ [Call.Add key]⟩ ∧
        UpdateFunc c old (.resource r) w =
          ⟨c.queue.Add key w.queue, w.trace ++ [Call.Add key]⟩ ∧
        DeleteFunc c (.resource r) w =
          ⟨c.queue.Add key w.queue, w.trace ++ [Call.Add key]⟩ ∧
        ∃ d, tombstoneFor r = .ok d ∧
          DeleteFunc c d w = ⟨c.queue.Add key w.queue, w.trace ++ [Call.Add key]⟩) ∧
    (∀ (k : String) (o : Obj) (w : World Q),
      DeleteFunc c (.deletedFinalStateUnknown k o) w =
        ⟨c.queue.Add k w.queue, w.trace ++ [Call.Add k]⟩) ∧
    (∀ (r1 r2 : Resource) (old1 old2 : Obj) (w : World Q),
      r1.Namespace = r2.Namespace → r1.Name = r2.Name →
        AddFunc c (.resource r1) w = AddFunc c (.resource r2) w ∧
        UpdateFunc c old1 (.resource r1) w = UpdateFunc c old2 (.resource r2) w ∧
        DeleteFunc c (.resource r1) w = DeleteFunc c (.resource r2) w) ∧
    (cm.queue = modelQueue →
      ∀ (r : Resource) (w : World ModelQueue) (key : String),
        key = (if r.Namespace = "" then r.Name else r.Namespace ++ "/" ++ r.Name) →
        w.queue.shuttingDown = false → key ∉ w.queue.dirty → key ∉ w.queue.processing →
          (AddFunc cm (.resource r) w).queue.queue = w.queue.queue ++ [key] ∧
          (AddFunc cm (.resource r) w).trace = w.trace ++ [Call.Add key]) ∧
    (∀ r : Resource, r.Namespace ≠ "" → r.Name ≠ "" → '/' ∉ r.Namespace.data →
      '/' ∉ r.Name.data →
      ∃ key, MetaNamespaceKeyFunc (.resource r) = .ok key ∧
        key = r.Namespace ++ "/" ++ r.Name ∧
        SplitMetaNamespaceKey key = .ok (r.Namespace, r.Name) ∧
        processItem c key =
          (match c.informer.GetByKey key with
            | .error err => some (Err.fetchingObject key err)
            | .ok _ => none)) := by
  have hkey : ∀ r : Resource, MetaNamespaceKeyFunc (.resource r) =
      .ok (if r.Namespace = "" then r.Name else r.Namespace ++ "/" ++ r.Name) := by
    intro r
    by_cases h : r.Namespace = ""
    · have h1 : ¬ r.Namespace.length > 0 := fun h2 =>
        (length_pos_iff_ne_empty r.Namespace).mp h2 h
      simp [MetaNamespaceKeyFunc, h]
    · have h1 : r.Namespace.length > 0 := (length_pos_iff_ne_empty r.Namespace).mpr h
      simp [MetaNamespaceKeyFunc, h, h1]
  refine ⟨hkey, ?_, ?_, ?_, ?_, ?_⟩
  · intro r old w key hk
    subst hk
    refine ⟨?_, ?_, ?_, ?_⟩
    · simp [AddFunc, hkey, qAdd]
    · simp [UpdateFunc, hkey, qAdd]
    · simp [DeleteFunc, DeletionHandlingMetaNamespaceKeyFunc, hkey, qAdd]
    · refine ⟨.deletedFinalStateUnknown
        (if r.Namespace = "" then r.Name else r.Namespace ++ "/" ++ r.Name) (.resource r),
        ?_, ?_⟩
      · simp [tombstoneFor, hkey]
      · simp [DeleteFunc, DeletionHandlingMetaNamespaceKeyFunc, qAdd]
  · intro k o w
    simp [DeleteFunc, DeletionHandlingMetaNamespaceKeyFunc, qAdd]
  · intro r1 r2 old1 old2 w h1 h2
    simp [AddFunc, UpdateFunc, DeleteFunc, DeletionHandlingMetaNamespaceKeyFunc, hkey, h1, h2]
  · intro hq r w key hk hopen hd hp
    subst hk
    simp only [AddFunc, hkey, qAdd, hq, modelQueue, ModelQueue.Add]
    simp [hopen, hd, hp]
  · intro r h1 h2 h3 h4
    refine ⟨r.Namespace ++ "/" ++ r.Name, ?_, rfl, SplitMetaNamespaceKey_join _ _ h3 h4, ?_⟩
    · rw [hkey]; simp [h1]
    · simp only [processItem, SplitMetaNamespaceKey_join _ _ h3 h4]
      cases c.informer.GetByKey (r.Namespace ++ "/" ++ r.Name) with
      | error e => rfl
      | ok o => cases o <;> rfl

/-- C7 at the object `default/a`: the Add handler puts `default/a` into the empty model
queue with one `Add` call, and the key splits back into `default` and `a`. -/
theorem work_key_round_trip_witness :
    ((AddFunc sampleController (.resource ⟨"default", "a", "7", ⟨"x", true, 1⟩, ⟨"", ""⟩⟩)
        (worldOf [])).queue.queue = [] ++ ["default/a"] ∧
      (AddFunc sampleController (.resource ⟨"default", "a", "7", ⟨"x", true, 1⟩, ⟨"", ""⟩⟩)
        (worldOf [])).trace = [] ++ [Call.Add "default/a"]) ∧
    ∃ key, MetaNamespaceKeyFunc (.resource ⟨"default", "a", "7", ⟨"x", true, 1⟩, ⟨"", ""⟩⟩)
        = .ok key ∧
      key = "default" ++ "/" ++ "a" ∧
      SplitMetaNamespaceKey key = .ok ("default", "a") ∧
      processItem sampleController key =
        (match sampleController.informer.GetByKey key with
          | .error err => some (Err.fetchingObject key err)
          | .ok _ => none) :=
  ⟨(work_key_round_trip sampleController sampleController).2.2.2.2.1 rfl
      ⟨"default", "a", "7", ⟨"x", true, 1⟩, ⟨"", ""⟩⟩ (worldOf []) "default/a"
      (by decide) rfl (by decide) (by decide),
    (work_key_round_trip sampleController sampleController).2.2.2.2.2
      ⟨"default", "a", "7", ⟨"x", true, 1⟩, ⟨"", ""⟩⟩ (by decide) (by decide) (by decide)
      (by decide)⟩

/-! ## The retry bound on the model queue -/

theorem segments_cons (x : Call) (xs : List Call) :
    segments (x :: xs) =
      match segments xs with
      | [] => [[x]]
      | s :: rest => if s.head? = some Call.Get then [x] :: s :: rest else (x :: s) :: rest :=
  rfl

theorem segments_cons_head (y : Call) (ys : List Call) :
    ∃ s rest, segments (y :: ys) = (y :: s) :: rest := by
  cases h : segments ys with
  | nil => exact ⟨[], [], by simp [segments, h]⟩
  | cons s rest =>
    by_cases hs : s.head? = some Call.Get
    · exact ⟨[], s :: rest, by simp [segments, h, hs]⟩
    · exact ⟨s, rest, by simp [segments, h, hs]⟩

theorem segments_append (body t : List Call) (hbody : Call.Get ∉ body)
    (ht : t = [] ∨ ∃ t1, t = Call.Get :: t1) (x : Call) :
    segments (x :: body ++ t) = (x :: body) :: segments t := by
  induction body generalizing x with
  | nil =>
    rcases ht with rfl | ⟨t1, rfl⟩
    · simp [segments]
    · obtain ⟨s, rest, h⟩ := segments_cons_head Call.Get t1
      show segments (x :: Call.Get :: t1) = [x] :: segments (Call.Get :: t1)
      rw [segments_cons, h]
      simp
  | cons b body ih =>
    have hb : b ≠ Call.Get := fun h => hbody (by simp [h])
    have hbody1 : Call.Get ∉ body := fun h => hbody (by simp [h])
    have h1 := ih hbody1 b
    simp only [List.cons_append] at h1 ⊢
    rw [segments_cons, h1]
    simp [hb]

theorem modelQueue_Get_cons (q : ModelQueue) (k : String) (rest : List String)
    (h : q.queue = k :: rest) :
    modelQueue.Get q =
      .item k ⟨rest, q.dirty.filter (fun x => x ≠ k), k :: q.processing, q.failures,
        q.shuttingDown⟩ := by
  simp [modelQueue, ModelQueue.Get, h]

theorem modelQueue_Get_nil (q : ModelQueue) (h : q.queue = []) (hopen : q.shuttingDown = false) :
    modelQueue.Get q = .blocks := by
  simp [modelQueue, ModelQueue.Get, h, hopen]

/-- One iteration on the model queue, for the key `k` at the head of the queue. -/
theorem model_step (c : Controller ModelQueue) (hq : c.queue = modelQueue)
    (w : World ModelQueue) (k : String) (rest : List String)
    (hqueue : w.queue.queue = k :: rest) (hopen : w.queue.shuttingDown = false) :
    ∃ w1, processNextItem c w = .ret true w1 ∧ w1.queue.shuttingDown = false ∧
      (∀ x, x ≠ k → w1.queue.failures x = w.queue.failures x) ∧
      (∀ x, x ≠ k → (x ∈ w1.queue.dirty → x ∈ w.queue.dirty) ∧
        (x ∈ w1.queue.processing → x ∈ w.queue.processing)) ∧
      ((processItem c k = none ∧
          w1.trace = w.trace ++ [Call.Get, Call.processItem k, Call.Forget k, Call.Done k] ∧
          w1.queue.queue = rest ∧ w1.queue.failures k = 0 ∧
          k ∉ w1.queue.dirty ∧ k ∉ w1.queue.processing) ∨
       (∃ e, processItem c k = some e ∧ w.queue.failures k < 3 ∧
          w1.trace = w.trace ++ retryCalls k ∧
          w1.queue.queue = rest ++ [k] ∧ w1.queue.failures k = w.queue.failures k + 1) ∨
       (∃ e, processItem c k = some e ∧ 3 ≤ w.queue.failures k ∧
          w1.trace = w.trace ++ giveUpCalls k e ∧
          w1.queue.queue = rest ∧ w1.queue.failures k = 0 ∧
          k ∉ w1.queue.dirty ∧ k ∉ w1.queue.processing)) := by
  have hget : c.queue.Get w.queue =
      .item k ⟨rest, w.queue.dirty.filter (fun x => x ≠ k), k :: w.queue.processing,
        w.queue.failures, w.queue.shuttingDown⟩ := by
    rw [hq]
    exact modelQueue_Get_cons w.queue k rest hqueue
  cases hp : processItem c k with
  | none =>
    refine ⟨_, processNextItem_of_nil c w k _ hget hp, ?_, ?_, ?_, ?_⟩
    · simp [hq, modelQueue, ModelQueue.Done, ModelQueue.Forget, hopen]
    · intro x hx
      simp [hq, modelQueue, ModelQueue.Done, ModelQueue.Forget, hx]
    · intro x hx
      simp [hq, modelQueue, ModelQueue.Done, ModelQueue.Forget, hx]
    · left
      simp [hq, modelQueue, ModelQueue.Done, ModelQueue.Forget]
  | some e =>
    by_cases hn : w.queue.failures k < 3
    · have hn1 : c.queue.NumRequeues k
          ⟨rest, w.queue.dirty.filter (fun x => x ≠ k), k :: w.queue.processing,
            w.queue.failures, w.queue.shuttingDown⟩ < 3 := by
        simp only [hq, modelQueue, ModelQueue.NumRequeues]
        omega
      refine ⟨_, processNextItem_of_retry c w k _ e hget hp hn1, ?_, ?_, ?_, ?_⟩
      · simp [hq, modelQueue, ModelQueue.Done, ModelQueue.AddRateLimited, ModelQueue.Add,
          hopen]
      · intro x hx
        simp [hq, modelQueue, ModelQueue.Done, ModelQueue.AddRateLimited, ModelQueue.Add,
          hopen, hx]
      · intro x hx
        simp [hq, modelQueue, ModelQueue.Done, ModelQueue.AddRateLimited, ModelQueue.Add,
          hopen, hx]
      · right; left
        refine ⟨e, rfl, hn, ?_⟩
        simp [hq, modelQueue, ModelQueue.Done, ModelQueue.AddRateLimited, ModelQueue.Add,
          hopen, retryCalls]
    · have hn1 : 3 ≤ c.queue.NumRequeues k
          ⟨rest, w.queue.dirty.filter (fun x => x ≠ k), k :: w.queue.processing,
            w.queue.failures, w.queue.shuttingDown⟩ := by
        simp only [hq, modelQueue, ModelQueue.NumRequeues]
        omega
      refine ⟨_, processNextItem_of_give_up c w k _ e hget hp hn1, ?_, ?_, ?_, ?_⟩
      · simp [hq, modelQueue, ModelQueue.Done, ModelQueue.Forget, hopen]
      · intro x hx
        simp [hq, modelQueue, ModelQueue.Done, ModelQueue.Forget, hx]
      · intro x hx
        simp [hq, modelQueue, ModelQueue.Done, ModelQueue.Forget, hx]
      · right; right
        refine ⟨e, rfl, not_lt.mp hn, ?_⟩
        simp [hq, modelQueue, ModelQueue.Done, ModelQueue.Forget, giveUpCalls]

/-- One iteration on the model queue for a key `k` other than `key`: nothing about `key`
changes. -/
theorem model_step_other (c : Controller ModelQueue) (hq : c.queue = modelQueue)
    (w : World ModelQueue) (k key : String) (rest : List String) (hk : key ≠ k)
    (hqueue : w.queue.queue = k :: rest) (hopen : w.queue.shuttingDown = false) :
    ∃ w1 body, processNextItem c w = .ret true w1 ∧ w1.queue.shuttingDown = false ∧
      w1.trace = w.trace ++ Call.Get :: body ∧ Call.Get ∉ body ∧
      Call.processItem key ∉ body ∧
      (w1.queue.queue = rest ∨ w1.queue.queue = rest ++ [k]) ∧
      w1.queue.failures key = w.queue.failures key ∧
      (key ∈ w1.queue.dirty → key ∈ w.queue.dirty) ∧
      (key ∈ w1.queue.processing → key ∈ w.queue.processing) := by
  obtain ⟨w1, h1, h2, h3, h4, h5⟩ := model_step c hq w k rest hqueue hopen
  rcases h5 with ⟨_, ht, hqq, _⟩ | ⟨e, _, _, ht, hqq, _⟩ | ⟨e, _, _, ht, hqq, _⟩
  · exact ⟨w1, [Call.processItem k, Call.Forget k, Call.Done k], h1, h2, by simpa using ht,
      by simp, by simp [hk], Or.inl hqq, h3 key hk, (h4 key hk).1, (h4 key hk).2⟩
  · exact ⟨w1, [Call.processItem k, Call.NumRequeues k, Call.AddRateLimited k, Call.Done k],
      h1, h2, by simpa [retryCalls] using ht, by simp, by simp [hk], Or.inr hqq, h3 key hk,
      (h4 key hk).1, (h4 key hk).2⟩
  · exact ⟨w1, [Call.processItem k, Call.NumRequeues k, Call.Forget k, Call.HandleError e,
        Call.Done k],
      h1, h2, by simpa [giveUpCalls] using ht, by simp, by simp [hk], Or.inl hqq, h3 key hk,
      (h4 key hk).1, (h4 key hk).2⟩

theorem deliveriesOf_append (key : String) (body t : List Call) (hbody : Call.Get ∉ body)
    (ht : t = [] ∨ ∃ t1, t = Call.Get :: t1) :
    deliveriesOf key (Call.Get :: body ++ t) =
      if Call.processItem key ∈ body then (Call.Get :: body) :: deliveriesOf key t
      else deliveriesOf key t := by
  unfold deliveriesOf
  rw [segments_append body t hbody ht Call.Get]
  by_cases h : Call.processItem key ∈ body
  · simp [h]
  · simp [h]

theorem deliveriesOf_nil (key : String) : deliveriesOf key [] = [] := rfl

/-- Once `key` has left the model queue, the worker never delivers it again. -/
theorem runWorker_absent (c : Controller ModelQueue) (hq : c.queue = modelQueue)
    (key : String) (fuel : Nat) :
    ∀ w : World ModelQueue, key ∉ w.queue.queue → w.queue.shuttingDown = false →
      ∃ t, (runWorker c fuel w).world.trace = w.trace ++ t ∧
        (t = [] ∨ ∃ t1, t = Call.Get :: t1) ∧
        deliveriesOf key t = [] ∧
        key ∉ (runWorker c fuel w).world.queue.queue ∧
        (runWorker c fuel w).world.queue.failures key = w.queue.failures key ∧
        (key ∈ (runWorker c fuel w).world.queue.dirty → key ∈ w.queue.dirty) ∧
        (key ∈ (runWorker c fuel w).world.queue.processing → key ∈ w.queue.processing) := by
  induction fuel with
  | zero =>
    intro w hmem _
    exact ⟨[], by simp [runWorker, Outcome.world], Or.inl rfl, rfl,
      by simpa [runWorker, Outcome.world] using hmem, by simp [runWorker, Outcome.world],
      by simp [runWorker, Outcome.world], by simp [runWorker, Outcome.world]⟩
  | succ fuel ih =>
    intro w hmem hopen
    cases hqueue : w.queue.queue with
    | nil =>
      have hget : c.queue.Get w.queue = .blocks := by
        rw [hq]
        exact modelQueue_Get_nil w.queue hqueue hopen
      have hp := processNextItem_of_blocks c w hget
      refine ⟨[Call.Get], by simp [runWorker, hp, Outcome.world], Or.inr ⟨[], rfl⟩, ?_, ?_, ?_,
        ?_, ?_⟩
      · have h := deliveriesOf_append key [] [] (by simp) (Or.inl rfl)
        simpa [deliveriesOf_nil] using h
      · simp [runWorker, hp, Outcome.world, hqueue]
      · simp [runWorker, hp, Outcome.world]
      · simp [runWorker, hp, Outcome.world]
      · simp [runWorker, hp, Outcome.world]
    | cons k rest =>
      have hk : key ≠ k := fun h => hmem (by simp [hqueue, h])
      have hrest : key ∉ rest := fun h => hmem (by simp [hqueue, h])
      obtain ⟨w1, body, h1, h2, h3, h4, h5, h6, h7, h8, h9⟩ :=
        model_step_other c hq w k key rest hk hqueue hopen
      have hmem1 : key ∉ w1.queue.queue := by
        rcases h6 with h6 | h6 <;> simp [h6, hrest, hk]
      obtain ⟨t, i1, i2, i3, i4, i5, i6, i7⟩ := ih w1 hmem1 h2
      have hrun : runWorker c (fuel + 1) w = runWorker c fuel w1 := by
        simp [runWorker, h1]
      rw [hrun]
      refine ⟨Call.Get :: body ++ t, by simp [i1, h3], Or.inr ⟨body ++ t, rfl⟩, ?_, i4,
        by rw [i5, h7], fun h => h8 (i6 h), fun h => h9 (i7 h)⟩
      rw [deliveriesOf_append key body t h4 i2]
      simp [h5, i3]

/-- The worker never shuts the model queue down. -/
theorem runWorker_open (c : Controller ModelQueue) (hq : c.queue = modelQueue) (fuel : Nat) :
    ∀ w : World ModelQueue, w.queue.shuttingDown = false →
      (runWorker c fuel w).world.queue.shuttingDown = false := by
  induction fuel with
  | zero => exact fun w h => by simpa [runWorker, Outcome.world] using h
  | succ fuel ih =>
    intro w hopen
    cases hqueue : w.queue.queue with
    | nil =>
      have hget : c.queue.Get w.queue = .blocks := by
        rw [hq]
        exact modelQueue_Get_nil w.queue hqueue hopen
      simp [runWorker, processNextItem_of_blocks c w hget, Outcome.world, hopen]
    | cons k rest =>
      obtain ⟨w1, h1, h2, _⟩ := model_step c hq w k rest hqueue hopen
      have hrun : runWorker c (fuel + 1) w = runWorker c fuel w1 := by
        simp [runWorker, h1]
      rw [hrun]
      exact ih w1 h2

/-- While `key` waits in the model queue with `r` retries left, the worker delivers it
`r + 1` more times: `r` retries and one last failure that gives it up. -/
theorem runWorker_present (c : Controller ModelQueue) (hq : c.queue = modelQueue)
    (key : String) (e : Err) (herr : processItem c key = some e) (fuel : Nat) :
    ∀ (w : World ModelQueue) (pre post : List String) (r L : Nat),
      w.queue.queue = pre ++ key :: post → key ∉ pre → key ∉ post →
      w.queue.failures key + r = 3 → w.queue.shuttingDown = false →
      w.queue.queue.length ≤ L → pre.length + 1 + r * L ≤ fuel →
      ∃ t, (runWorker c fuel w).world.trace = w.trace ++ t ∧
        (t = [] ∨ ∃ t1, t = Call.Get :: t1) ∧
        deliveriesOf key t = List.replicate r (retryCalls key) ++ [giveUpCalls key e] ∧
        key ∉ (runWorker c fuel w).world.queue.queue ∧
        (runWorker c fuel w).world.queue.failures key = 0 ∧
        key ∉ (runWorker c fuel w).world.queue.dirty ∧
        key ∉ (runWorker c fuel w).world.queue.processing := by
  induction fuel with
  | zero =>
    intro w pre post r L _ _ _ _ _ _ hfuel
    omega
  | succ fuel ih =>
    intro w pre post r L hqueue hpre hpost hfail hopen hlen hfuel
    cases pre with
    | nil =>
      have hqueue1 : w.queue.queue = key :: post := by simpa using hqueue
      obtain ⟨w1, h1, h2, h3, h4, h5⟩ := model_step c hq w key post hqueue1 hopen
      have hrun : runWorker c (fuel + 1) w = runWorker c fuel w1 := by
        simp [runWorker, h1]
      rw [hrun]
      rcases h5 with ⟨hnone, _⟩ | ⟨e1, he1, hlt, ht, hqq, hff⟩ | ⟨e1, he1, hge, ht, hqq, hff, hd, hpr⟩
      · rw [herr] at hnone
        cases hnone
      · obtain ⟨r1, rfl⟩ : ∃ r1, r = r1 + 1 := ⟨r - 1, by omega⟩
        have hlen0 : post.length + 1 ≤ L := by
          rw [hqueue1] at hlen
          simpa using hlen
        have hmul : (r1 + 1) * L = r1 * L + L := Nat.succ_mul r1 L
        obtain ⟨t, i1, i2, i3, i4, i5, i6, i7⟩ := ih w1 post [] r1 L hqq hpost (by simp)
          (by omega) h2 (by simp [hqq]; omega) (by simp at hfuel; omega)
        refine ⟨retryCalls key ++ t, by simp [i1, ht], Or.inr ⟨_, rfl⟩, ?_, i4, i5, i6, i7⟩
        have hd := deliveriesOf_append key
          [Call.processItem key, Call.NumRequeues key, Call.AddRateLimited key, Call.Done key]
          t (by simp) i2
        simp only [List.mem_cons, true_or, if_true] at hd
        simp only [retryCalls, List.replicate_succ, List.cons_append] at hd ⊢
        rw [hd, i3]
        simp [retryCalls]
      · have hr : r = 0 := by omega
        subst hr
        have hmem1 : key ∉ w1.queue.queue := by rw [hqq]; exact hpost
        obtain ⟨t, i1, i2, i3, i4, i5, i6, i7⟩ := runWorker_absent c hq key fuel w1 hmem1 h2
        have he : e1 = e := by
          rw [herr] at he1
          exact (Option.some.inj he1).symm
        subst he
        refine ⟨giveUpCalls key e1 ++ t, by simp [i1, ht], Or.inr ⟨_, rfl⟩, ?_, i4,
          by rw [i5, hff], fun h => hd (i6 h), fun h => hpr (i7 h)⟩
        have hd := deliveriesOf_append key
          [Call.processItem key, Call.NumRequeues key, Call.Forget key, Call.HandleError e1,
            Call.Done key] t (by simp) i2
        simp only [List.mem_cons, true_or, if_true] at hd
        simp only [giveUpCalls, List.cons_append] at hd ⊢
        rw [hd, i3]
        simp
    | cons k pre1 =>
      have hk : key ≠ k := fun h => hpre (by simp [h])
      have hpre1 : key ∉ pre1 := fun h => hpre (by simp [h])
      have hqueue1 : w.queue.queue = k :: (pre1 ++ key :: post) := by simpa using hqueue
      obtain ⟨w1, body, h1, h2, h3, h4, h5, h6, h7, h8, h9⟩ :=
        model_step_other c hq w k key (pre1 ++ key :: post) hk hqueue1 hopen
      have hrun : runWorker c (fuel + 1) w = runWorker c fuel w1 := by
        simp [runWorker, h1]
      rw [hrun]
      have hlen0 : pre1.length + post.length + 2 ≤ L := by
        rw [hqueue1] at hlen
        simp at hlen
        omega
      have hfuel1 : pre1.length + 1 + r * L ≤ fuel := by
        simp at hfuel
        omega
      have key_step : ∃ post1, w1.queue.queue = pre1 ++ key :: post1 ∧ key ∉ post1 ∧
          w1.queue.queue.length ≤ L := by
        rcases h6 with h6 | h6
        · exact ⟨post, h6, hpost, by rw [h6]; simp; omega⟩
        · exact ⟨post ++ [k], by simp [h6], by simp [hpost, hk], by rw [h6]; simp; omega⟩
      obtain ⟨post1, j1, j2, j3⟩ := key_step
      obtain ⟨t, i1, i2, i3, i4, i5, i6, i7⟩ := ih w1 pre1 post1 r L j1 hpre1 j2
        (by rw [h7]; exact hfail) h2 j3 hfuel1
      refine ⟨Call.Get :: body ++ t, by simp [i1, h3], Or.inr ⟨body ++ t, rfl⟩, ?_, i4, i5,
        i6, i7⟩
      rw [deliveriesOf_append key body t h4 i2]
      simp [h5, i3]

/-- C1 (retry bound), on the model queue with any other keys waiting around `key`.  If
`processItem` fails on `key`, `key` waits once in the queue with `NumRequeues(key) = 0`,
and the worker runs for at least four rounds of the queue, then the iterations that
deliver `key` to `processItem` are exactly four: three that call `AddRateLimited(key)`
and a fourth that calls `Forget(key)` and `HandleError` with the error, once, and does
not re-enqueue.  Afterwards `key` is not in the queue, `NumRequeues(key)` is `0`, and a
later `Add(key)` enqueues it afresh. -/
theorem retry_bound (c : Controller ModelQueue) (hq : c.queue = modelQueue) (key : String)
    (e : Err) (herr : processItem c key = some e) (w : World ModelQueue)
    (hcount : w.queue.queue.count key = 1) (hfail : modelQueue.NumRequeues key w.queue = 0)
    (hopen : w.queue.shuttingDown = false) (fuel : Nat)
    (hfuel : 4 * w.queue.queue.length ≤ fuel) :
    maxRetries + 1 = 4 ∧
    ∃ t, (runWorker c fuel w).world.trace = w.trace ++ t ∧
      deliveriesOf key t =
        [retryCalls key, retryCalls key, retryCalls key, giveUpCalls key e] ∧
      key ∉ (runWorker c fuel w).world.queue.queue ∧
      modelQueue.NumRequeues key (runWorker c fuel w).world.queue = 0 ∧
      (modelQueue.Add key (runWorker c fuel w).world.queue).queue =
        (runWorker c fuel w).world.queue.queue ++ [key] ∧
      modelQueue.NumRequeues key (modelQueue.Add key (runWorker c fuel w).world.queue) = 0 := by
  refine ⟨rfl, ?_⟩
  have hmem : key ∈ w.queue.queue := by
    apply List.count_pos_iff.mp
    omega
  obtain ⟨pre, post, hsplit⟩ := List.append_of_mem hmem
  have hc : pre.count key + post.count key = 0 := by
    rw [hsplit] at hcount
    simp at hcount
    omega
  have hpre : key ∉ pre := fun h => by
    have := List.count_pos_iff.mpr h
    omega
  have hpost : key ∉ post := fun h => by
    have := List.count_pos_iff.mpr h
    omega
  have hfail0 : w.queue.failures key = 0 := by
    simpa [modelQueue, ModelQueue.NumRequeues] using hfail
  have hlenq : w.queue.queue.length = pre.length + post.length + 1 := by
    rw [hsplit]
    simp
    omega
  obtain ⟨t, i1, _, i3, i4, i5, i6, i7⟩ := runWorker_present c hq key e herr fuel w pre post 3
    w.queue.queue.length hsplit hpre hpost (by omega) hopen (le_refl _) (by omega)
  have hopen1 : (runWorker c fuel w).world.queue.shuttingDown = false :=
    runWorker_open c hq fuel w hopen
  refine ⟨t, i1, by simpa [List.replicate] using i3, i4, ?_, ?_, ?_⟩
  · simp [modelQueue, ModelQueue.NumRequeues, i5]
  · simp [modelQueue, ModelQueue.Add, hopen1, i6, i7]
  · simp [modelQueue, ModelQueue.Add, ModelQueue.NumRequeues, hopen1, i6, i7, i5]

/-- C1 with three keys waiting: `x/y` (absent from the store, so it succeeds), the
malformed `a/b/c`, and the malformed `p/q/r`.  The deliveries of `a/b/c` are three retries
and one last failure reported through `HandleError`. -/
theorem retry_bound_witness :
    ∃ t, (runWorker sampleController 12 (worldOf ["x/y", "a/b/c", "p/q/r"])).world.trace =
        [] ++ t ∧
      deliveriesOf "a/b/c" t =
        [retryCalls "a/b/c", retryCalls "a/b/c", retryCalls "a/b/c",
          giveUpCalls "a/b/c" (Err.unexpectedKeyFormat "a/b/c")] ∧
      "a/b/c" ∉ (runWorker sampleController 12
        (worldOf ["x/y", "a/b/c", "p/q/r"])).world.queue.queue ∧
      modelQueue.NumRequeues "a/b/c" (runWorker sampleController 12
        (worldOf ["x/y", "a/b/c", "p/q/r"])).world.queue = 0 ∧
      (modelQueue.Add "a/b/c" (runWorker sampleController 12
        (worldOf ["x/y", "a/b/c", "p/q/r"])).world.queue).queue =
        (runWorker sampleController 12
          (worldOf ["x/y", "a/b/c", "p/q/r"])).world.queue.queue ++ ["a/b/c"] ∧
      modelQueue.NumRequeues "a/b/c" (modelQueue.Add "a/b/c" (runWorker sampleController 12
        (worldOf ["x/y", "a/b/c", "p/q/r"])).world.queue) = 0 :=
  (retry_bound sampleController rfl "a/b/c" (Err.unexpectedKeyFormat "a/b/c") rfl
    (worldOf ["x/y", "a/b/c", "p/q/r"]) (by decide) rfl rfl 12 (by decide)).2

end KubeResource
